import Mathlib

/-!
# SafePredict demo: verification of the online-evaluation notebook

Shallow embedding of the code cells of `SafePredictDemo.ipynb` that the
claims are about: the label remap (cell 3), the change-point label shuffle
(cell 5) and the error-rate loop (cell 9).  The SafePredict controller
itself is imported by the notebook from the `SafePredict` library, whose
source is not part of this snapshot; the parts of it the claims need are
modelled from the design spec, each marked `Modelled from the spec:`.
-/

/-- Cell 3: the label remap `y = (y + 1)/2` applied elementwise to the
original cod-rna labels (−1 and 1), mapping them to 0 and 1. -/
def remapLabel (y : ℤ) : ℤ := (y + 1) / 2

/-- Cell 5: the maximum label of a (nonempty) segment `a :: l` of
`holdout_y`, as computed by `max(...)` over the segment. -/
def segMax (a : ℕ) (l : List ℕ) : ℕ := l.foldl max a

/-- Cell 5: the minimum label of a (nonempty) segment `a :: l` of
`holdout_y`, as computed by `min(...)` over the segment. -/
def segMin (a : ℕ) (l : List ℕ) : ℕ := l.foldl min a

/-- Cell 5: the length of `permuted_labels`, i.e. of
`np.random.permutation(np.arange(min(seg), max(seg) + 1))` for the
segment `a :: l`: a permutation of `arange(lo, hi)` has `hi - lo`
elements, here `max - min + 1`. -/
def permutedLabelsLength (a : ℕ) (l : List ℕ) : ℕ :=
  segMax a l - segMin a l + 1

/-- Cell 5, inner loop: `for t in range(lo, hi): ys[t] = perm[ys[t]]`,
reading the label at position `t` and replacing it with the entry of the
permutation array `perm` at index `ys[t]` (out-of-range reads modelled
with default 0; claim C9 settles when they occur). -/
def changePointInner (perm : List ℕ) (lo hi : ℕ) (ys : List ℕ) : List ℕ :=
  (List.range (hi - lo)).foldl
    (fun acc k => acc.set (lo + k) (perm.getD (acc.getD (lo + k) 0) 0)) ys

/-- Cell 5, outer block: guarded by `if numCP != 0`, it iterates
`i = 1 .. numCP`, shuffling the labels of segment
`[i*(T//(numCP+1)), (i+1)*(T//(numCP+1)))` with the permutation array
drawn for that segment (`perms i` models the output of
`np.random.permutation`); `T` is the initial size of `holdout_y`. -/
def changePointBlock (numCP : ℕ) (perms : ℕ → List ℕ) (ys : List ℕ) : List ℕ :=
  let T := ys.length
  if numCP ≠ 0 then
    (List.range numCP).foldl
      (fun acc i0 =>
        changePointInner (perms (i0 + 1))
          ((i0 + 1) * (T / (numCP + 1))) ((i0 + 2) * (T / (numCP + 1))) acc)
      ys
  else ys

/-- State of the error-rate loop of cell 9: the running `errors` and
`counter_sp` counts and the accumulated `error_rates` list. -/
structure Cell9State where
  errors : ℕ
  counter_sp : ℕ
  error_rates : List ℚ
deriving DecidableEq

/-- One iteration of the cell 9 loop on the round `(pred, label)`
(i.e. `(predictions[i], y[i + tl])`): increment `errors` when a
non-abstained prediction (`pred ≠ -1`) differs from the label, increment
`counter_sp`, and append `errors/counter_sp` to `error_rates` (appending
0 instead when `counter_sp == 0`). -/
def cell9Step (s : Cell9State) (pred label : ℤ) : Cell9State :=
  let errors := if pred ≠ -1 ∧ pred ≠ label then s.errors + 1 else s.errors
  let counter_sp := s.counter_sp + 1
  let error_rates :=
    if counter_sp = 0 then s.error_rates ++ [(0 : ℚ)]
    else s.error_rates ++ [(errors : ℚ) / (counter_sp : ℚ)]
  ⟨errors, counter_sp, error_rates⟩

/-- The cell 9 loop, folded over the list of rounds from a given state. -/
def cell9Loop (s : Cell9State) : List (ℤ × ℤ) → Cell9State
  | [] => s
  | (pred, label) :: rest => cell9Loop (cell9Step s pred label) rest

/-- Cell 9 as run by the notebook: the loop started from
`errors = 0`, `counter_sp = 0`, `error_rates = []`. -/
def cell9Run (rounds : List (ℤ × ℤ)) : Cell9State :=
  cell9Loop ⟨0, 0, []⟩ rounds

/-- `cell9Step` with the dead `counter_sp == 0` branch removed: the
division is performed unconditionally.  Used to show the branch is
unreachable. -/
def cell9StepNoGuard (s : Cell9State) (pred label : ℤ) : Cell9State :=
  let errors := if pred ≠ -1 ∧ pred ≠ label then s.errors + 1 else s.errors
  let counter_sp := s.counter_sp + 1
  ⟨errors, counter_sp, s.error_rates ++ [(errors : ℚ) / (counter_sp : ℚ)]⟩

/-- The cell 9 loop built from `cell9StepNoGuard`. -/
def cell9LoopNoGuard (s : Cell9State) : List (ℤ × ℤ) → Cell9State
  | [] => s
  | (pred, label) :: rest => cell9LoopNoGuard (cell9StepNoGuard s pred label) rest

/-- The guard-free variant of `cell9Run`. -/
def cell9RunNoGuard (rounds : List (ℤ × ℤ)) : Cell9State :=
  cell9LoopNoGuard ⟨0, 0, []⟩ rounds

/-- Number of rounds in the list where a non-abstained prediction
(`pred ≠ -1`) differed from the true label. -/
def errorCount : List (ℤ × ℤ) → ℕ
  | [] => 0
  | (pred, label) :: rest =>
      (if pred ≠ -1 ∧ pred ≠ label then 1 else 0) + errorCount rest

/-- Number of non-abstained rounds in the list. -/
def predictedCount : List (ℤ × ℤ) → ℕ
  | [] => 0
  | (pred, _) :: rest => (if pred ≠ -1 then 1 else 0) + predictedCount rest

/-- The error rate at round `i` as the spec words it for claim C2:
errors among predicted rounds up to `i`, divided by the number of
non-abstained rounds up to `i`. -/
def claimedErrorRate (rounds : List (ℤ × ℤ)) (i : ℕ) : ℚ :=
  (errorCount (rounds.take (i + 1)) : ℚ) / (predictedCount (rounds.take (i + 1)) : ℚ)

lemma le_segMax (l : List ℕ) : ∀ a : ℕ, ∀ v ∈ a :: l, v ≤ segMax a l := by
  induction l with
  | nil =>
      intro a v hv
      simp only [List.mem_cons, List.not_mem_nil, or_false] at hv
      simpa [segMax] using hv.le
  | cons b l ih =>
      intro a v hv
      have hstep : segMax a (b :: l) = segMax (max a b) l := rfl
      simp only [List.mem_cons] at hv
      rw [hstep]
      rcases hv with hv | hv | hv
      · subst hv
        exact le_trans (le_max_left v b) (ih (max v b) _ (List.mem_cons_self _ _))
      · subst hv
        exact le_trans (le_max_right a v) (ih (max a v) _ (List.mem_cons_self _ _))
      · exact ih (max a b) v (List.mem_cons_of_mem _ hv)

lemma segMin_le (l : List ℕ) : ∀ a : ℕ, ∀ v ∈ a :: l, segMin a l ≤ v := by
  induction l with
  | nil =>
      intro a v hv
      simp only [List.mem_cons, List.not_mem_nil, or_false] at hv
      simpa [segMin] using hv.ge
  | cons b l ih =>
      intro a v hv
      have hstep : segMin a (b :: l) = segMin (min a b) l := rfl
      simp only [List.mem_cons] at hv
      rw [hstep]
      rcases hv with hv | hv | hv
      · subst hv
        exact le_trans (ih (min v b) _ (List.mem_cons_self _ _)) (min_le_left v b)
      · subst hv
        exact le_trans (ih (min a v) _ (List.mem_cons_self _ _)) (min_le_right a v)
      · exact ih (min a b) v (List.mem_cons_of_mem _ hv)

lemma segMax_mem (l : List ℕ) : ∀ a : ℕ, segMax a l ∈ a :: l := by
  induction l with
  | nil => intro a; simp [segMax]
  | cons b l ih =>
      intro a
      have hstep : segMax a (b :: l) = segMax (max a b) l := rfl
      rw [hstep]
      have h := ih (max a b)
      simp only [List.mem_cons] at h ⊢
      rcases h with h | h
      · rcases max_choice a b with hab | hab
        · left; rw [h, hab]
        · right; left; rw [h, hab]
      · right; right; exact h

/-- **C9.** In the change-point shuffling block, `permuted_labels` has
`max − min + 1` entries for a segment with labels `a :: l`, and indexing
it by the label values of the segment stays in bounds for every position
exactly when the segment's minimum label is 0 (as with the demo's
remapped label space {0, 1}); with a minimum label above 0 the maximum
label indexes out of bounds. -/
theorem permuted_labels_index_in_bounds_iff_min_zero (a : ℕ) (l : List ℕ) :
    (∀ v ∈ a :: l, v < permutedLabelsLength a l) ↔ segMin a l = 0 := by
  constructor
  · intro h
    by_contra hm
    have hM := h _ (segMax_mem l a)
    have h2 := segMin_le l a _ (segMax_mem l a)
    unfold permutedLabelsLength at hM
    omega
  · intro h v hv
    have h1 := le_segMax l a v hv
    unfold permutedLabelsLength
    omega

theorem permuted_labels_index_in_bounds_iff_min_zero_witness :
    ((∀ v ∈ [0, 1, 1, 0], v < permutedLabelsLength 0 [1, 1, 0]) ↔
      segMin 0 [1, 1, 0] = 0) ∧
    ((∀ v ∈ [1, 2], v < permutedLabelsLength 1 [2]) ↔ segMin 1 [2] = 0) :=
  ⟨permuted_labels_index_in_bounds_iff_min_zero 0 [1, 1, 0],
   permuted_labels_index_in_bounds_iff_min_zero 1 [2]⟩

/-- **C10.** With `numCP = 0` the change-point block takes its `else`
branch, performs no iterations, and returns the label array unchanged,
elementwise included. -/
theorem changePointBlock_zero_cp_identity (perms : ℕ → List ℕ) (ys : List ℕ) :
    changePointBlock 0 perms ys = ys ∧
      ∀ t, (changePointBlock 0 perms ys).getD t 0 = ys.getD t 0 := by
  refine ⟨by simp [changePointBlock], fun t => by simp [changePointBlock]⟩

/-- **C3.** The demo's label remap sends each original label in {−1, 1}
to {0, 1}; in particular no remapped label collides with the abstention
sentinel −1 that the predictions are tested against in cell 9. -/
theorem remapLabel_mem_zero_one_ne_sentinel (y : ℤ) (hy : y = -1 ∨ y = 1) :
    (remapLabel y = 0 ∨ remapLabel y = 1) ∧ remapLabel y ≠ -1 := by
  rcases hy with h | h <;> subst h <;> decide

theorem remapLabel_mem_zero_one_ne_sentinel_witness :
    (((-1 : ℤ) = -1 ∨ (-1 : ℤ) = 1) ∧
      ((remapLabel (-1) = 0 ∨ remapLabel (-1) = 1) ∧ remapLabel (-1) ≠ -1)) ∧
    (((1 : ℤ) = -1 ∨ (1 : ℤ) = 1) ∧
      ((remapLabel 1 = 0 ∨ remapLabel 1 = 1) ∧ remapLabel 1 ≠ -1)) :=
  ⟨⟨Or.inl rfl, remapLabel_mem_zero_one_ne_sentinel (-1) (Or.inl rfl)⟩,
   ⟨Or.inr rfl, remapLabel_mem_zero_one_ne_sentinel 1 (Or.inr rfl)⟩⟩

lemma cell9Step_def (s : Cell9State) (pred label : ℤ) :
    cell9Step s pred label =
      ⟨(if pred ≠ -1 ∧ pred ≠ label then s.errors + 1 else s.errors),
       s.counter_sp + 1,
       s.error_rates ++
         [((if pred ≠ -1 ∧ pred ≠ label then s.errors + 1 else s.errors : ℕ) : ℚ)
           / ((s.counter_sp + 1 : ℕ) : ℚ)]⟩ := by
  simp [cell9Step]

lemma cell9Loop_counter (l : List (ℤ × ℤ)) :
    ∀ s : Cell9State, (cell9Loop s l).counter_sp = s.counter_sp + l.length := by
  induction l with
  | nil => intro s; simp [cell9Loop]
  | cons p l ih =>
      intro s
      obtain ⟨pred, label⟩ := p
      have hloop : cell9Loop s ((pred, label) :: l)
          = cell9Loop (cell9Step s pred label) l := rfl
      rw [hloop, ih, cell9Step_def]
      simp only [List.length_cons]
      omega

lemma cell9Loop_errors (l : List (ℤ × ℤ)) :
    ∀ s : Cell9State, (cell9Loop s l).errors = s.errors + errorCount l := by
  induction l with
  | nil => intro s; simp [cell9Loop, errorCount]
  | cons p l ih =>
      intro s
      obtain ⟨pred, label⟩ := p
      have hloop : cell9Loop s ((pred, label) :: l)
          = cell9Loop (cell9Step s pred label) l := rfl
      rw [hloop, ih, cell9Step_def]
      simp only [errorCount]
      split <;> omega

lemma cell9Loop_error_rates (l : List (ℤ × ℤ)) :
    ∀ s : Cell9State,
      (cell9Loop s l).error_rates
        = s.error_rates ++ (List.range l.length).map
            (fun i => ((s.errors + errorCount (l.take (i + 1)) : ℕ) : ℚ)
              / ((s.counter_sp + i + 1 : ℕ) : ℚ)) := by
  induction l with
  | nil => intro s; simp [cell9Loop]
  | cons p l ih =>
      intro s
      obtain ⟨pred, label⟩ := p
      have hloop : cell9Loop s ((pred, label) :: l)
          = cell9Loop (cell9Step s pred label) l := rfl
      rw [hloop, ih, cell9Step_def]
      simp only [List.length_cons, List.range_succ_eq_map, List.map_cons, List.map_map]
      rw [List.append_assoc]
      simp only [List.singleton_append]
      congr 1
      congr 1
      · have h0 : errorCount (((pred, label) :: l).take (0 + 1))
            = (if pred ≠ -1 ∧ pred ≠ label then 1 else 0) := by
          simp [errorCount]
        rw [h0]
        have hnum0 : (if pred ≠ -1 ∧ pred ≠ label then s.errors + 1 else s.errors)
            = s.errors + (if pred ≠ -1 ∧ pred ≠ label then 1 else 0) := by
          split <;> omega
        rw [hnum0]
      · apply List.map_congr_left
        intro i _
        simp only [Function.comp_apply, Nat.succ_eq_add_one, List.take_succ_cons, errorCount]
        have hnum : (if pred ≠ -1 ∧ pred ≠ label then s.errors + 1 else s.errors)
            + errorCount (l.take (i + 1))
            = s.errors + ((if pred ≠ -1 ∧ pred ≠ label then 1 else 0)
                + errorCount (l.take (i + 1))) := by
          split <;> omega
        have hden : s.counter_sp + 1 + i + 1 = s.counter_sp + (i + 1) + 1 := by
          omega
        rw [hnum, hden]

lemma cell9Loop_eq_noGuard (l : List (ℤ × ℤ)) :
    ∀ s : Cell9State, cell9Loop s l = cell9LoopNoGuard s l := by
  induction l with
  | nil => intro s; rfl
  | cons p l ih =>
      intro s
      obtain ⟨pred, label⟩ := p
      have hloop : cell9Loop s ((pred, label) :: l)
          = cell9Loop (cell9Step s pred label) l := rfl
      have hloop2 : cell9LoopNoGuard s ((pred, label) :: l)
          = cell9LoopNoGuard (cell9StepNoGuard s pred label) l := rfl
      rw [hloop, hloop2, ih]
      congr 1

/-- **C8.** In the cell 9 loop, the counter equals the number of rounds
processed, so each appended rate at position `i` divides by the positive
integer `i + 1`, the `counter_sp == 0` branch is unreachable (the run
equals the run with that branch deleted), and after the loop
`error_rates` has exactly `total_preds` entries. -/
theorem cell9_counter_positive_guard_unreachable (rounds : List (ℤ × ℤ)) :
    (cell9Run rounds).counter_sp = rounds.length
    ∧ (cell9Run rounds).error_rates.length = rounds.length
    ∧ (cell9Run rounds).error_rates
        = (List.range rounds.length).map
            (fun i => ((errorCount (rounds.take (i + 1)) : ℕ) : ℚ) / ((i + 1 : ℕ) : ℚ))
    ∧ cell9Run rounds = cell9RunNoGuard rounds := by
  have hc := cell9Loop_counter rounds ⟨0, 0, []⟩
  have hr := cell9Loop_error_rates rounds ⟨0, 0, []⟩
  refine ⟨by simpa [cell9Run] using hc, ?_, ?_, ?_⟩
  · rw [cell9Run, hr]
    simp
  · rw [cell9Run, hr]
    simp
  · exact cell9Loop_eq_noGuard rounds ⟨0, 0, []⟩

/-- For C2: on the concrete run `[(-1, 0), (1, 0)]` (one abstention,
then one wrong prediction), the notebook's tracked error rate at round 1
is 1/2 — `errors` divided by `counter_sp`, which counts *all* rounds —
while the rate the claim describes (errors divided by the number of
non-abstained rounds) is 1.  The claim is false of the code. -/
theorem cell9_rate_ne_claimed_rate :
    (cell9Run [((-1 : ℤ), (0 : ℤ)), (1, 0)]).error_rates.getD 1 0
      ≠ claimedErrorRate [((-1 : ℤ), (0 : ℤ)), (1, 0)] 1 := by
  norm_num [cell9Run, cell9Loop, cell9Step, claimedErrorRate, errorCount, predictedCount]

/-- **C2 (amended).** The error rate tracked at round `i` of the cell 9
loop is the number of errors among non-abstained rounds up to `i`
divided by the *total* number of rounds up to `i` (abstentions
included), i.e. by `i + 1`. -/
theorem cell9_error_rates_divide_by_round_count (rounds : List (ℤ × ℤ)) (i : ℕ)
    (hi : i < rounds.length) :
    (cell9Run rounds).error_rates.getD i 0
      = ((errorCount (rounds.take (i + 1)) : ℕ) : ℚ) / ((i + 1 : ℕ) : ℚ) := by
  have hr := cell9Loop_error_rates rounds ⟨0, 0, []⟩
  rw [cell9Run, hr]
  simp only [List.nil_append]
  rw [List.getD_eq_getElem?_getD, List.getElem?_map, List.getElem?_range hi]
  simp

theorem cell9_error_rates_divide_by_round_count_witness :
    1 < ([((-1 : ℤ), (0 : ℤ)), (1, 0)] : List (ℤ × ℤ)).length
    ∧ (cell9Run [((-1 : ℤ), (0 : ℤ)), (1, 0)]).error_rates.getD 1 0
        = ((errorCount (([((-1 : ℤ), (0 : ℤ)), (1, 0)] : List (ℤ × ℤ)).take (1 + 1)) : ℕ) : ℚ)
          / ((1 + 1 : ℕ) : ℚ) :=
  ⟨by decide,
   cell9_error_rates_divide_by_round_count [((-1 : ℤ), (0 : ℤ)), (1, 0)] 1 (by decide)⟩

/-- Modelled from the spec: the error taxonomy of the controller, whose
library source is not part of this snapshot.  `configurationError` is
raised at construction for an invalid target error rate;
`notSeededError` when `decide` is called before `seed`. -/
inductive SPError where
  | configurationError : SPError
  | notSeededError : SPError
deriving DecidableEq

namespace SafePredict

/-- Modelled from the spec: the controller's state record — the target
error rate ε, the injected pseudo-random seed, the `Unseeded → Seeded`
state flag, the round counter, the counts of predictions and of errors
among predictions, and the confidence/threshold parameter giving the
current probability of predicting. -/
structure Controller where
  target_error : ℚ
  rngSeed : ℕ
  seeded : Bool
  rounds : ℕ
  predsMade : ℕ
  errsMade : ℕ
  threshold : ℚ
deriving DecidableEq

/-- Modelled from the spec: the explicit pseudo-random source injected at
construction; draw `t` of stream `seedVal` is a rational in [0, 1). -/
def prngDraw (seedVal t : ℕ) : ℚ :=
  ((((seedVal + 1) * (t + 1) * 7919) % 101 : ℕ) : ℚ) / 101

/-- Modelled from the spec: construction with `target_error` ε fails with
`ConfigurationError` iff ε is not in the open interval (0, 1); otherwise
the controller starts unseeded, with zeroed counters and an initial
threshold derived from ε. -/
def safePredict (target_error : ℚ) (rngSeed : ℕ) : Except SPError Controller :=
  if 0 < target_error ∧ target_error < 1 then
    Except.ok ⟨target_error, rngSeed, false, 0, 0, 0, 1 - target_error⟩
  else Except.error SPError.configurationError

/-- Modelled from the spec: `seed` fits the base estimator on a non-empty
batch and initializes the round counter and error-budget state; seeding
is the only transition out of `Unseeded`.  An empty batch is outside the
contract and leaves the controller unseeded. -/
def seed (c : Controller) (batch : List (ℤ × ℤ)) : Controller :=
  if batch = [] then c
  else { c with seeded := true, rounds := 0, predsMade := 0, errsMade := 0,
                threshold := 1 - c.target_error }

/-- Modelled from the spec: one `decide` call.  It fails with
`NotSeededError` before seeding; otherwise it obtains ŷ from the base
estimator, draws u from the injected pseudo-random source and predicts ŷ
when u is below the threshold, abstaining with the sentinel −1 otherwise;
it then updates the counts and scales the threshold up (capped at 1, by
the factor `up`) after a correct or abstained round and down (by the
factor `down`) after an incorrect predicted round — the spec leaves the
exact constants of the adaptive rule open, so they are parameters. -/
def decide (up down : ℚ) (est : ℤ → ℤ) (c : Controller) (x yTrue : ℤ) :
    Except SPError (ℤ × Controller) :=
  if c.seeded then
    if prngDraw c.rngSeed c.rounds < c.threshold then
      if est x = yTrue then
        Except.ok (est x,
          { c with rounds := c.rounds + 1, predsMade := c.predsMade + 1,
                   threshold := min 1 (c.threshold * up) })
      else
        Except.ok (est x,
          { c with rounds := c.rounds + 1, predsMade := c.predsMade + 1,
                   errsMade := c.errsMade + 1,
                   threshold := c.threshold * down })
    else
      Except.ok (-1,
        { c with rounds := c.rounds + 1,
                 threshold := min 1 (c.threshold * up) })
  else Except.error SPError.notSeededError

/-- Modelled from the spec: the decision sequence of consecutive `decide`
calls over an input stream; a failed call leaves the state unchanged. -/
def run (up down : ℚ) (est : ℤ → ℤ) : Controller → List (ℤ × ℤ) → List (Except SPError ℤ)
  | _, [] => []
  | c, (x, y) :: rest =>
      match SafePredict.decide up down est c x y with
      | Except.error e => Except.error e :: run up down est c rest
      | Except.ok (d, cNext) => Except.ok d :: run up down est cNext rest

/-- Modelled from the spec: the threshold (per-round probability of
predicting) observed before each round of a run, ending with the final
threshold. -/
def thresholdTrace (up down : ℚ) (est : ℤ → ℤ) : Controller → List (ℤ × ℤ) → List ℚ
  | c, [] => [c.threshold]
  | c, (x, y) :: rest =>
      match SafePredict.decide up down est c x y with
      | Except.error _ => c.threshold :: thresholdTrace up down est c rest
      | Except.ok (_, cNext) => c.threshold :: thresholdTrace up down est cNext rest

lemma decide_ok_of_seeded (up down : ℚ) (est : ℤ → ℤ) (c : Controller) (x y : ℤ)
    (h : c.seeded = true) :
    ∃ r, SafePredict.decide up down est c x y = Except.ok r := by
  unfold SafePredict.decide
  rw [if_pos h]
  by_cases hu : prngDraw c.rngSeed c.rounds < c.threshold
  · by_cases hy : est x = y
    · exact ⟨_, by rw [if_pos hu, if_pos hy]⟩
    · exact ⟨_, by rw [if_pos hu, if_neg hy]⟩
  · exact ⟨_, by rw [if_neg hu]⟩

/-- **C5.** Construction fails with `ConfigurationError` iff ε is not in
(0, 1); for every ε in (0, 1) it succeeds. -/
theorem construction_validates_target_error (ε : ℚ) (s : ℕ) :
    (safePredict ε s = Except.error SPError.configurationError ↔ ¬(0 < ε ∧ ε < 1))
    ∧ (0 < ε ∧ ε < 1 → ∃ c, safePredict ε s = Except.ok c) := by
  constructor
  · constructor
    · intro h hcond
      unfold safePredict at h
      rw [if_pos hcond] at h
      cases h
    · intro hcond
      unfold safePredict
      rw [if_neg hcond]
  · intro hcond
    exact ⟨_, by unfold safePredict; rw [if_pos hcond]⟩

theorem construction_validates_target_error_witness :
    (safePredict (1/20) 0 = Except.error SPError.configurationError
        ↔ ¬(0 < (1/20 : ℚ) ∧ (1/20 : ℚ) < 1))
    ∧ (0 < (1/20 : ℚ) ∧ (1/20 : ℚ) < 1 → ∃ c, safePredict (1/20) 0 = Except.ok c) :=
  construction_validates_target_error (1/20) 0

/-- **C4.** `decide` before `seed` fails with `NotSeededError`; after a
successful construction and a `seed` on a non-empty batch, the round
counter starts at 0 and the first `decide` call succeeds. -/
theorem decide_requires_seed (ε : ℚ) (s : ℕ) (up down : ℚ) (est : ℤ → ℤ)
    (c : Controller) (batch : List (ℤ × ℤ)) (x y : ℤ)
    (hc : safePredict ε s = Except.ok c) (hb : batch ≠ []) :
    SafePredict.decide up down est c x y = Except.error SPError.notSeededError
    ∧ (seed c batch).rounds = 0
    ∧ ∃ r, SafePredict.decide up down est (seed c batch) x y = Except.ok r := by
  have hcs : c.seeded = false := by
    unfold safePredict at hc
    split at hc
    · cases hc
      rfl
    · cases hc
  refine ⟨?_, ?_, ?_⟩
  · unfold SafePredict.decide
    rw [if_neg (by rw [hcs]; exact Bool.false_ne_true)]
  · simp [seed, hb]
  · exact decide_ok_of_seeded up down est (seed c batch) x y (by simp [seed, hb])

theorem decide_requires_seed_witness :
    (safePredict (1/20) 0
        = Except.ok ⟨1/20, 0, false, 0, 0, 0, 1 - 1/20⟩
      ∧ ([((0 : ℤ), (1 : ℤ))] : List (ℤ × ℤ)) ≠ [])
    ∧ (SafePredict.decide 2 (1/2) (fun z => z) ⟨1/20, 0, false, 0, 0, 0, 1 - 1/20⟩ 0 1
        = Except.error SPError.notSeededError
      ∧ (seed ⟨1/20, 0, false, 0, 0, 0, 1 - 1/20⟩ [((0 : ℤ), (1 : ℤ))]).rounds = 0
      ∧ ∃ r, SafePredict.decide 2 (1/2) (fun z => z)
            (seed ⟨1/20, 0, false, 0, 0, 0, 1 - 1/20⟩ [((0 : ℤ), (1 : ℤ))]) 0 1
          = Except.ok r) :=
  ⟨⟨by norm_num [safePredict], by simp⟩,
   decide_requires_seed (1/20) 0 2 (1/2) (fun z => z)
     ⟨1/20, 0, false, 0, 0, 0, 1 - 1/20⟩ [((0 : ℤ), (1 : ℤ))] 0 1
     (by norm_num [safePredict]) (by simp)⟩

/-- **C6.** Determinism given fixed randomness: two controllers built
with the same ε and the same pseudo-random seed, seeded with the same
batch and fed the same input sequence, produce identical decision
sequences. -/
theorem run_deterministic (ε : ℚ) (s : ℕ) (up down : ℚ) (est : ℤ → ℤ)
    (batch inputs : List (ℤ × ℤ)) (c₁ c₂ : Controller)
    (h₁ : safePredict ε s = Except.ok c₁) (h₂ : safePredict ε s = Except.ok c₂) :
    run up down est (seed c₁ batch) inputs = run up down est (seed c₂ batch) inputs := by
  rw [h₁] at h₂
  cases h₂
  rfl

theorem run_deterministic_witness :
    (safePredict (1/20) 7 = Except.ok ⟨1/20, 7, false, 0, 0, 0, 1 - 1/20⟩
      ∧ safePredict (1/20) 7 = Except.ok ⟨1/20, 7, false, 0, 0, 0, 1 - 1/20⟩)
    ∧ run 2 (1/2) (fun _ => 1)
        (seed ⟨1/20, 7, false, 0, 0, 0, 1 - 1/20⟩ [((0 : ℤ), (1 : ℤ))])
        [((0 : ℤ), (1 : ℤ)), ((1 : ℤ), (0 : ℤ))]
      = run 2 (1/2) (fun _ => 1)
          (seed ⟨1/20, 7, false, 0, 0, 0, 1 - 1/20⟩ [((0 : ℤ), (1 : ℤ))])
          [((0 : ℤ), (1 : ℤ)), ((1 : ℤ), (0 : ℤ))] :=
  ⟨⟨by norm_num [safePredict], by norm_num [safePredict]⟩,
   run_deterministic (1/20) 7 2 (1/2) (fun _ => 1)
     [((0 : ℤ), (1 : ℤ))] [((0 : ℤ), (1 : ℤ)), ((1 : ℤ), (0 : ℤ))]
     ⟨1/20, 7, false, 0, 0, 0, 1 - 1/20⟩ ⟨1/20, 7, false, 0, 0, 0, 1 - 1/20⟩
     (by norm_num [safePredict]) (by norm_num [safePredict])⟩

lemma thresholdTrace_head (up down : ℚ) (est : ℤ → ℤ) (c : Controller)
    (l : List (ℤ × ℤ)) :
    (thresholdTrace up down est c l).head? = some c.threshold := by
  cases l with
  | nil => rfl
  | cons p l =>
      obtain ⟨x, y⟩ := p
      rcases hd : SafePredict.decide up down est c x y with e | r
      · simp [thresholdTrace, hd]
      · obtain ⟨d, cNext⟩ := r
        simp [thresholdTrace, hd]

lemma decide_threshold_correct (up down : ℚ) (est : ℤ → ℤ) (c : Controller) (x y : ℤ)
    (hxy : est x = y) (hup : 1 ≤ up) (h0 : 0 ≤ c.threshold) (h1 : c.threshold ≤ 1)
    (d : ℤ) (cNext : Controller)
    (hd : SafePredict.decide up down est c x y = Except.ok (d, cNext)) :
    c.threshold ≤ cNext.threshold ∧ 0 ≤ cNext.threshold ∧ cNext.threshold ≤ 1 := by
  have hmin : c.threshold ≤ min 1 (c.threshold * up)
      ∧ 0 ≤ min 1 (c.threshold * up) ∧ min 1 (c.threshold * up) ≤ 1 :=
    ⟨le_min h1 (le_mul_of_one_le_right h0 hup),
     le_min zero_le_one (mul_nonneg h0 (le_trans zero_le_one hup)),
     min_le_left _ _⟩
  unfold SafePredict.decide at hd
  by_cases hs : c.seeded
  · rw [if_pos hs] at hd
    by_cases hu : prngDraw c.rngSeed c.rounds < c.threshold
    · rw [if_pos hu, if_pos hxy] at hd
      cases hd
      exact hmin
    · rw [if_neg hu] at hd
      cases hd
      exact hmin
  · rw [if_neg hs] at hd
    cases hd

/-- **C7.** Monotonic response to accuracy: over any run of consecutive
rounds on which the base estimator's prediction equals the true label,
the controller's prediction (non-abstention) rate — the per-round
probability of predicting, i.e. the threshold — is non-decreasing, for
any scale-up factor `up ≥ 1` of the spec's adaptive rule and any
threshold starting in [0, 1]. -/
theorem threshold_monotone_on_correct_run (up down : ℚ) (est : ℤ → ℤ)
    (inputs : List (ℤ × ℤ)) :
    ∀ c : Controller, 1 ≤ up → 0 ≤ c.threshold → c.threshold ≤ 1 →
      (∀ p ∈ inputs, est p.1 = p.2) →
      List.Chain' (fun a b => a ≤ b) (thresholdTrace up down est c inputs) := by
  induction inputs with
  | nil =>
      intro c hup h0 h1 hcorrect
      simp [thresholdTrace]
  | cons p l ih =>
      intro c hup h0 h1 hcorrect
      obtain ⟨x, y⟩ := p
      have hxy : est x = y := hcorrect (x, y) (List.mem_cons_self _ _)
      have hrest : ∀ q ∈ l, est q.1 = q.2 :=
        fun q hq => hcorrect q (List.mem_cons_of_mem _ hq)
      rcases hd : SafePredict.decide up down est c x y with e | r
      · have htr : thresholdTrace up down est c ((x, y) :: l)
            = c.threshold :: thresholdTrace up down est c l := by
          simp [thresholdTrace, hd]
        rw [htr]
        refine List.chain'_cons'.mpr ⟨?_, ih c hup h0 h1 hrest⟩
        intro z hz
        rw [thresholdTrace_head] at hz
        cases hz
        exact le_refl _
      · obtain ⟨d, cNext⟩ := r
        have hth := decide_threshold_correct up down est c x y hxy hup h0 h1 d cNext hd
        have htr : thresholdTrace up down est c ((x, y) :: l)
            = c.threshold :: thresholdTrace up down est cNext l := by
          simp [thresholdTrace, hd]
        rw [htr]
        refine List.chain'_cons'.mpr ⟨?_, ih cNext hup hth.2.1 hth.2.2 hrest⟩
        intro z hz
        rw [thresholdTrace_head] at hz
        cases hz
        exact hth.1

theorem threshold_monotone_on_correct_run_witness :
    ((1 : ℚ) ≤ 2 ∧ (0 : ℚ) ≤ 9/10 ∧ (9/10 : ℚ) ≤ 1
      ∧ ∀ p ∈ ([((0 : ℤ), (1 : ℤ)), ((2 : ℤ), (1 : ℤ))] : List (ℤ × ℤ)),
          (fun _ => (1 : ℤ)) p.1 = p.2)
    ∧ List.Chain' (fun a b => a ≤ b)
        (thresholdTrace 2 (1/2) (fun _ => 1) ⟨1/10, 3, true, 0, 0, 0, 9/10⟩
          [((0 : ℤ), (1 : ℤ)), ((2 : ℤ), (1 : ℤ))]) :=
  ⟨⟨by norm_num, by norm_num, by norm_num, by decide⟩,
   threshold_monotone_on_correct_run 2 (1/2) (fun _ => 1)
     [((0 : ℤ), (1 : ℤ)), ((2 : ℤ), (1 : ℤ))] ⟨1/10, 3, true, 0, 0, 0, 9/10⟩
     (by norm_num) (by norm_num) (by norm_num) (by decide)⟩

end SafePredict
